import Mathlib

/-!
Shallow embedding of the `discord-cnayp-bots` repository (Go), covering the
schedule engine (`internal/scheduler/scheduler.go`), the gateway client
(`internal/discord/client.go`) and the message handler
(`internal/bot/bot.go`), together with theorems settling the frozen claims.

Modelling conventions:
* Instants are minutes since the Unix epoch (`Int`).  A timezone database is
  a function `String → Option Int` giving the zone's offset from UTC in
  minutes (`none` models a `time.LoadLocation` failure).  Offsets are fixed
  (no DST transitions), which is the granularity at which the engine's
  logic is stated.  `t + off` is the local civil time of instant `t`, in
  minutes; day number, hour, minute and weekday are obtained from it by
  Euclidean division.  Day 0 (1970-01-01) is a Thursday.
* Go's `Format("2006-01-02")` renders a local civil day injectively; date
  keys are therefore modelled by the local day number (`Int`) instead of
  the rendered string.
* Go map semantics are modelled by association lists where insertion
  prepends, so a later insertion shadows an earlier one.
* `fmt.Sscanf(s, "%d", &v)` with its error ignored leaves `v = 0` when no
  integer can be read; `sscanfInt` mirrors that.
-/

namespace CnaypBots

/-! ## Calendar arithmetic on minute instants -/

/-- Local day number of a local time in minutes (floor division). -/
def dayOf (x : Int) : Int := Int.ediv x 1440

/-- Minute within the day, in `[0, 1440)`. -/
def minOfDay (x : Int) : Int := Int.emod x 1440

/-- Hour component of a local time (Go `Time.Hour`). -/
def hourOf (x : Int) : Int := Int.ediv (minOfDay x) 60

/-- Minute component of a local time (Go `Time.Minute`). -/
def minuteOf (x : Int) : Int := Int.emod (minOfDay x) 60

/-- Weekday of a local time, Sunday = 0 (Go `Time.Weekday`); day 0 of the
epoch is a Thursday (= 4). -/
def weekdayOf (x : Int) : Int := Int.emod (dayOf x + 4) 7

/-- Lower-case weekday name, as produced by
`strings.ToLower(t.Weekday().String())` in the scheduler. -/
def wdName (w : Int) : String :=
  if w = 0 then "sunday"
  else if w = 1 then "monday"
  else if w = 2 then "tuesday"
  else if w = 3 then "wednesday"
  else if w = 4 then "thursday"
  else if w = 5 then "friday"
  else "saturday"

/-! ## String helpers used by the scheduler -/

/-- ASCII lower-casing of one character (the fragment of Go
`strings.ToLower` relevant to weekday-name comparison). -/
def lowerChar (c : Char) : Char :=
  if 'A' ≤ c ∧ c ≤ 'Z' then Char.ofNat (c.toNat + 32) else c

/-- ASCII lower-casing of a string (Go `strings.ToLower`). -/
def toLowerStr (s : String) : String := ⟨s.data.map lowerChar⟩

/-- Splitting a character list at `':'` (Go `strings.Split(s, ":")`). -/
def splitChAux : List Char → List (List Char)
  | [] => [[]]
  | c :: rest =>
    if c = ':' then [] :: splitChAux rest
    else
      match splitChAux rest with
      | [] => [[c]]
      | g :: gs => (c :: g) :: gs

/-- Go `strings.Split(s, ":")`. -/
def splitColon (s : String) : List String := (splitChAux s.data).map String.mk

/-- Leading decimal digits of a character list. -/
def takeDigits (cs : List Char) : List Char :=
  cs.takeWhile (fun c => '0' ≤ c ∧ c ≤ '9')

/-- Value of a digit list. -/
def digitsVal (ds : List Char) : Int :=
  ds.foldl (fun a c => a * 10 + ((c.toNat : Int) - 48)) 0

/-- `fmt.Sscanf(s, "%d", &v)` with the error ignored: `v` receives the
leading (optionally signed) integer of `s`, or stays `0` when none is
readable. -/
def sscanfInt (s : String) : Int :=
  let cs := s.data.dropWhile (fun c => c = ' ' ∨ c = '\t' ∨ c = '\n')
  match cs with
  | '-' :: rest => if takeDigits rest = [] then 0 else - digitsVal (takeDigits rest)
  | '+' :: rest => digitsVal (takeDigits rest)
  | _ => digitsVal (takeDigits cs)

/-! ## Scheduler data model (`internal/scheduler/scheduler.go`) -/

/-- `scheduler.Schedule`. -/
structure Schedule where
  name : String
  description : String
  voiceChannel : String
  notifyChannel : String
  days : List String
  time : String
  timezone : String
  durationMinutes : Int
deriving DecidableEq

/-- `scheduler.ScheduleConfig`. -/
structure ScheduleConfig where
  schedules : List Schedule
  digestTime : String
  digestChannel : String
  reminderMinutes : List Int
deriving DecidableEq

/-- Association-list lookup (Go map read; `none` models the missing key). -/
def alookup {α : Type} : List (String × α) → String → Option α
  | [], _ => none
  | (k, v) :: rest, n => if k = n then some v else alookup rest n

/-- `lastCreated`: schedule name → local day number of the last created
occurrence (Go `map[string]string` keyed by formatted date). -/
abbrev LC := List (String × Int)

/-- A sent-reminder key: `(schedule name, local day number, lead minutes)`
(Go string key `"name:date:minutes"`). -/
abbrev RemKey := String × Int × Int

/-- Timezone database: IANA name → offset from UTC in minutes. -/
abbrev TzDb := String → Option Int

/-! ## `shouldTrigger` (creation pass condition) -/

/-- `Scheduler.shouldTrigger`: decides whether the lead-time creation pass
fires for `S` at instant `now`, given the `lastCreated` map. -/
def shouldTrigger (tzdb : TzDb) (lastCreated : LC) (S : Schedule) (now : Int) : Bool :=
  match tzdb S.timezone with
  | none => false
  | some off =>
    let localNow := now + off
    let tomorrow := localNow + 1440
    let tomorrowDayName := wdName (weekdayOf tomorrow)
    if ! S.days.any (fun d => toLowerStr d == tomorrowDayName) then false
    else
      match splitColon S.time with
      | [p0, p1] =>
        let hour := sscanfInt p0
        let minute := sscanfInt p1
        if hourOf localNow != hour || minuteOf localNow != minute then false
        else if alookup lastCreated S.name == some (dayOf tomorrow) then false
        else true
      | _ => false

/-- The date-independent part of `shouldTrigger` (tomorrow's weekday and the
current local time match), used to factor the dedup check out. -/
def trigCond (tzdb : TzDb) (S : Schedule) (now : Int) : Bool :=
  match tzdb S.timezone with
  | none => false
  | some off =>
    let localNow := now + off
    let tomorrow := localNow + 1440
    let tomorrowDayName := wdName (weekdayOf tomorrow)
    if ! S.days.any (fun d => toLowerStr d == tomorrowDayName) then false
    else
      match splitColon S.time with
      | [p0, p1] =>
        let hour := sscanfInt p0
        let minute := sscanfInt p1
        if hourOf localNow != hour || minuteOf localNow != minute then false
        else true
      | _ => false

/-- The date key recorded by `triggerSchedule`: tomorrow's local day number
(Go `tomorrow.Format("2006-01-02")`). -/
def createKey (tzdb : TzDb) (S : Schedule) (now : Int) : Int :=
  match tzdb S.timezone with
  | none => 0
  | some off => dayOf (now + off + 1440)

/-! ## Creation pass: per-tick fold and multi-tick run

`checkSchedules` evaluates `shouldTrigger` for each schedule in order and
spawns `triggerSchedule` for the matches; `triggerSchedule` first records
tomorrow's date key in `lastCreated` and then performs its outbound calls.
The sequential embedding applies each spawned action's mark before the next
schedule is examined, which is the intended (lock-protected) semantics of
the check-then-mark sequence.  A tick emits the list of `(name, dateKey)`
creation actions it initiated. -/

/-- One `checkAll` creation pass over the schedule list (`checkSchedules`
plus the `lastCreated` mark of each spawned `triggerSchedule`). -/
def checkSchedulesT (tzdb : TzDb) (lc : LC) (schedules : List Schedule) (now : Int) :
    LC × List (String × Int) :=
  match schedules with
  | [] => (lc, [])
  | S :: rest =>
    if shouldTrigger tzdb lc S now then
      let key := createKey tzdb S now
      let r := checkSchedulesT tzdb ((S.name, key) :: lc) rest now
      (r.1, (S.name, key) :: r.2)
    else checkSchedulesT tzdb lc rest now

/-- The creation pass across a sequence of tick instants. -/
def runCreateT (tzdb : TzDb) (schedules : List Schedule) (lc : LC) :
    List Int → LC × List (String × Int)
  | [] => (lc, [])
  | t :: ts =>
    let r1 := checkSchedulesT tzdb lc schedules t
    let r2 := runCreateT tzdb schedules r1.1 ts
    (r2.1, r1.2 ++ r2.2)

/-- Single-schedule projection of one creation-pass step: the `lastCreated`
entry of one schedule name, and the date keys emitted for it. -/
def stepS (tzdb : TzDb) (S : Schedule) (o : Option Int) (t : Int) : Option Int × List Int :=
  if trigCond tzdb S t && !(o == some (createKey tzdb S t)) then
    (some (createKey tzdb S t), [createKey tzdb S t])
  else (o, [])

/-- Single-schedule projection of the creation pass across ticks. -/
def runS (tzdb : TzDb) (S : Schedule) (o : Option Int) : List Int → Option Int × List Int
  | [] => (o, [])
  | t :: ts =>
    let r1 := stepS tzdb S o t
    let r2 := runS tzdb S r1.1 ts
    (r2.1, r1.2 ++ r2.2)

theorem shouldTrigger_eq (tzdb : TzDb) (lc : LC) (S : Schedule) (now : Int) :
    shouldTrigger tzdb lc S now =
      (trigCond tzdb S now && !(alookup lc S.name == some (createKey tzdb S now))) := by
  unfold shouldTrigger trigCond createKey
  cases tzdb S.timezone with
  | none => rfl
  | some off =>
    simp only
    split
    · rfl
    · split
      · split
        · rfl
        · split <;> simp_all
      · rfl

theorem createKey_mono {tzdb : TzDb} {S : Schedule} {off : Int}
    (hoff : tzdb S.timezone = some off) {t t' : Int} (h : t ≤ t') :
    createKey tzdb S t ≤ createKey tzdb S t' := by
  unfold createKey
  rw [hoff]
  exact Int.ediv_le_ediv (by norm_num) (by omega)

theorem trigCond_none {tzdb : TzDb} {S : Schedule}
    (hz : tzdb S.timezone = none) (t : Int) : trigCond tzdb S t = false := by
  unfold trigCond
  rw [hz]

theorem runS_emits_nil_of_invalid {tzdb : TzDb} {S : Schedule}
    (hz : tzdb S.timezone = none) (o : Option Int) (ts : List Int) :
    (runS tzdb S o ts).2 = [] := by
  induction ts generalizing o with
  | nil => rfl
  | cons t ts ih =>
    have hstep : stepS tzdb S o t = (o, []) := by
      unfold stepS
      rw [trigCond_none hz, Bool.false_and, if_neg (by simp)]
    simp only [runS, hstep, List.nil_append]
    exact ih o

theorem runS_strict {tzdb : TzDb} {S : Schedule} {off : Int}
    (hoff : tzdb S.timezone = some off) :
    ∀ ts : List Int, List.Sorted (· ≤ ·) ts → ∀ o : Option Int,
      List.Pairwise (· < ·) (runS tzdb S o ts).2 ∧
      (∀ lb, o = some lb → (∀ t ∈ ts, lb ≤ createKey tzdb S t) →
        ∀ k ∈ (runS tzdb S o ts).2, lb < k) := by
  intro ts
  induction ts with
  | nil =>
    intro _ o
    exact ⟨List.Pairwise.nil, fun lb _ _ k hk => absurd hk (List.not_mem_nil k)⟩
  | cons t ts ih =>
    intro hsorted o
    rw [List.sorted_cons] at hsorted
    obtain ⟨ht, hts⟩ := hsorted
    by_cases hc : (trigCond tzdb S t && !(o == some (createKey tzdb S t))) = true
    · have hstep : stepS tzdb S o t =
          (some (createKey tzdb S t), [createKey tzdb S t]) := by
        unfold stepS; rw [if_pos hc]
      have hkeyle : ∀ t' ∈ ts, createKey tzdb S t ≤ createKey tzdb S t' :=
        fun t' ht' => createKey_mono hoff (ht t' ht')
      obtain ⟨ihPair, ihBound⟩ := ih hts (some (createKey tzdb S t))
      have htail : ∀ k ∈ (runS tzdb S (some (createKey tzdb S t)) ts).2,
          createKey tzdb S t < k := ihBound _ rfl hkeyle
      have hrun : (runS tzdb S o (t :: ts)).2 =
          createKey tzdb S t :: (runS tzdb S (some (createKey tzdb S t)) ts).2 := by
        simp only [runS, hstep, List.singleton_append]
      constructor
      · rw [hrun]
        exact List.Pairwise.cons htail ihPair
      · intro lb hlb hb k hk
        have hne : lb ≠ createKey tzdb S t := by
          rcases Bool.and_eq_true .. |>.mp hc with ⟨_, hne'⟩
          intro heq
          rw [hlb, heq] at hne'
          simp at hne'
        have hle : lb ≤ createKey tzdb S t := hb t (List.mem_cons_self t ts)
        have hlt : lb < createKey tzdb S t := lt_of_le_of_ne hle hne
        rw [hrun] at hk
        rcases List.mem_cons.mp hk with rfl | hk'
        · exact hlt
        · exact lt_trans hlt (htail k hk')
    · have hstep : stepS tzdb S o t = (o, []) := by
        unfold stepS; rw [if_neg hc]
      have hrun : (runS tzdb S o (t :: ts)).2 = (runS tzdb S o ts).2 := by
        simp only [runS, hstep, List.nil_append]
      obtain ⟨ihPair, ihBound⟩ := ih hts o
      constructor
      · rw [hrun]; exact ihPair
      · intro lb hlb hb k hk
        rw [hrun] at hk
        exact ihBound lb hlb (fun t' ht' => hb t' (List.mem_cons_of_mem t ht')) k hk

theorem runS_count_le_one (tzdb : TzDb) (S : Schedule) (o : Option Int)
    (ts : List Int) (hsorted : List.Sorted (· ≤ ·) ts) (D : Int) :
    ((runS tzdb S o ts).2).count D ≤ 1 := by
  cases hz : tzdb S.timezone with
  | none =>
    rw [runS_emits_nil_of_invalid hz]
    simp
  | some off =>
    have hpair := (runS_strict hz ts hsorted o).1
    have hnodup : ((runS tzdb S o ts).2).Nodup := hpair.imp Int.ne_of_lt
    exact List.nodup_iff_count_le_one.mp hnodup D

theorem checkSchedulesT_not_mem (tzdb : TzDb) {schedules : List Schedule}
    {n : String} (hn : n ∉ schedules.map Schedule.name) (lc : LC) (now : Int) :
    alookup (checkSchedulesT tzdb lc schedules now).1 n = alookup lc n ∧
    ∀ D : Int, ((checkSchedulesT tzdb lc schedules now).2).count (n, D) = 0 := by
  induction schedules generalizing lc with
  | nil => exact ⟨rfl, fun D => rfl⟩
  | cons S' rest ih =>
    simp only [List.map_cons, List.mem_cons, not_or] at hn
    obtain ⟨hne, hn'⟩ := hn
    have hne' : S'.name ≠ n := fun h => hne h.symm
    by_cases hc : shouldTrigger tzdb lc S' now = true
    · simp only [checkSchedulesT, if_pos hc]
      obtain ⟨ihl, ihc⟩ := ih hn' ((S'.name, createKey tzdb S' now) :: lc)
      refine ⟨?_, ?_⟩
      · rw [ihl]
        simp only [alookup]
        rw [if_neg hne']
      · intro D
        rw [List.count_cons, ihc D]
        simp [beq_iff_eq, Prod.ext_iff, hne']
    · simp only [checkSchedulesT, if_neg hc]
      exact ih hn' lc

theorem checkSchedulesT_proj {tzdb : TzDb} {schedules : List Schedule} {S : Schedule}
    (hnodup : (schedules.map Schedule.name).Nodup) (hS : S ∈ schedules)
    (lc : LC) (now : Int) :
    alookup (checkSchedulesT tzdb lc schedules now).1 S.name =
      (stepS tzdb S (alookup lc S.name) now).1 ∧
    ∀ D : Int, ((checkSchedulesT tzdb lc schedules now).2).count (S.name, D) =
      ((stepS tzdb S (alookup lc S.name) now).2).count D := by
  induction schedules generalizing lc with
  | nil => exact absurd hS (List.not_mem_nil S)
  | cons S' rest ih =>
    simp only [List.map_cons, List.nodup_cons] at hnodup
    obtain ⟨hnotin, hnodup'⟩ := hnodup
    rcases List.mem_cons.mp hS with rfl | hSrest
    · -- S is the head; its name does not occur in the rest.
      have hcond : shouldTrigger tzdb lc S now =
          (trigCond tzdb S now && !(alookup lc S.name == some (createKey tzdb S now))) :=
        shouldTrigger_eq tzdb lc S now
      by_cases hc : (trigCond tzdb S now &&
          !(alookup lc S.name == some (createKey tzdb S now))) = true
      · have hst : shouldTrigger tzdb lc S now = true := by rw [hcond]; exact hc
        simp only [checkSchedulesT, if_pos hst]
        obtain ⟨hl, hcnt⟩ :=
          checkSchedulesT_not_mem tzdb hnotin
            ((S.name, createKey tzdb S now) :: lc) now
        refine ⟨?_, ?_⟩
        · rw [hl]
          unfold stepS
          rw [if_pos hc]
          simp [alookup]
        · intro D
          rw [List.count_cons, hcnt D]
          unfold stepS
          rw [if_pos hc]
          simp [List.count_cons, List.count_nil, beq_iff_eq, Prod.ext_iff]
      · have hst : ¬ shouldTrigger tzdb lc S now = true := by rw [hcond]; exact hc
        simp only [checkSchedulesT, if_neg hst]
        obtain ⟨hl, hcnt⟩ := checkSchedulesT_not_mem tzdb hnotin lc now
        refine ⟨?_, ?_⟩
        · rw [hl]
          unfold stepS
          rw [if_neg hc]
        · intro D
          rw [hcnt D]
          unfold stepS
          rw [if_neg hc]
          simp
    · -- S is in the tail; the head's name differs from S's.
      have hne : S'.name ≠ S.name := by
        intro h
        exact hnotin (h ▸ List.mem_map_of_mem Schedule.name hSrest)
      by_cases hc : shouldTrigger tzdb lc S' now = true
      · simp only [checkSchedulesT, if_pos hc]
        have hlc : alookup ((S'.name, createKey tzdb S' now) :: lc) S.name =
            alookup lc S.name := by
          simp only [alookup, if_neg hne]
        obtain ⟨ihl, ihc⟩ := ih hnodup' hSrest ((S'.name, createKey tzdb S' now) :: lc)
        refine ⟨?_, ?_⟩
        · rw [ihl, hlc]
        · intro D
          rw [List.count_cons, ihc D, hlc]
          simp [beq_iff_eq, Prod.ext_iff, hne]
      · simp only [checkSchedulesT, if_neg hc]
        exact ih hnodup' hSrest lc

theorem runCreateT_not_mem {tzdb : TzDb} {schedules : List Schedule}
    {n : String} (hn : n ∉ schedules.map Schedule.name) (lc : LC) (ts : List Int) :
    ∀ D : Int, ((runCreateT tzdb schedules lc ts).2).count (n, D) = 0 := by
  induction ts generalizing lc with
  | nil => intro D; rfl
  | cons t ts ih =>
    intro D
    simp only [runCreateT, List.count_append]
    rw [(checkSchedulesT_not_mem tzdb hn lc t).2 D, ih (checkSchedulesT tzdb lc schedules t).1 D]

theorem runCreateT_proj {tzdb : TzDb} {schedules : List Schedule} {S : Schedule}
    (hnodup : (schedules.map Schedule.name).Nodup) (hS : S ∈ schedules)
    (lc : LC) (ts : List Int) :
    alookup (runCreateT tzdb schedules lc ts).1 S.name =
      (runS tzdb S (alookup lc S.name) ts).1 ∧
    ∀ D : Int, ((runCreateT tzdb schedules lc ts).2).count (S.name, D) =
      ((runS tzdb S (alookup lc S.name) ts).2).count D := by
  induction ts generalizing lc with
  | nil => exact ⟨rfl, fun D => rfl⟩
  | cons t ts ih =>
    obtain ⟨hl1, hc1⟩ := checkSchedulesT_proj hnodup hS lc t
    obtain ⟨ihl, ihc⟩ := ih (checkSchedulesT tzdb lc schedules t).1
    rw [hl1] at ihl ihc
    refine ⟨?_, ?_⟩
    · simp only [runCreateT, runS]
      exact ihl
    · intro D
      simp only [runCreateT, runS, List.count_append]
      rw [hc1 D, ihc D]

/-- **C1.** For every schedule `S` and date key `D`, across any
(time-ordered) sequence of tick evaluations, and with the schedule names
pairwise distinct as the data model requires, the lead-time creation action
is invoked at most once for the pair `(S.name, D)`: once `triggerSchedule`
has recorded `D` for `S.name`, `shouldTrigger` never fires again for that
pair — including at a re-evaluation of the very same instant, which the
non-strict ordering of the tick list permits. -/
theorem creation_at_most_once (tzdb : TzDb) (schedules : List Schedule) (lc : LC)
    (ts : List Int) (hnodup : (schedules.map Schedule.name).Nodup)
    (hsorted : List.Sorted (· ≤ ·) ts) (n : String) (D : Int) :
    ((runCreateT tzdb schedules lc ts).2).count (n, D) ≤ 1 := by
  by_cases hn : n ∈ schedules.map Schedule.name
  · obtain ⟨S, hS, rfl⟩ := List.mem_map.mp hn
    rw [(runCreateT_proj hnodup hS lc ts).2 D]
    exact runS_count_le_one tzdb S (alookup lc S.name) ts hsorted D
  · rw [runCreateT_not_mem hn lc ts D]
    norm_num

/-! ## Concrete fixtures used by witnesses and counterexamples -/

/-- A one-zone timezone database: UTC at offset 0. -/
def tzdb0 : TzDb := fun s => if s = "UTC" then some 0 else none

/-- The spec's E2E schedule: `{days:[monday], time:"17:00", timezone:"UTC"}`. -/
def S0 : Schedule :=
  { name := "standup", description := "d", voiceChannel := "vc",
    notifyChannel := "nc", days := ["Monday"], time := "17:00", timezone := "UTC",
    durationMinutes := 30 }

theorem creation_at_most_once_witness :
    ((runCreateT tzdb0 [S0] [] [5340, 5340]).2).count ("standup", 4) ≤ 1 :=
  creation_at_most_once tzdb0 [S0] [] [5340, 5340] (by decide) (by decide) "standup" 4

/-! ## C2: characterisation of the creation condition -/

/-- ASCII digit character. -/
def dChar (n : Nat) : Char := Char.ofNat (48 + n)

/-- Canonical rendering of an `"HH:MM"` time-of-day string. -/
def timeStr (h m : Nat) : String :=
  ⟨[dChar (h / 10), dChar (h % 10), ':', dChar (m / 10), dChar (m % 10)]⟩

set_option maxHeartbeats 1000000 in
theorem timeStr_parse : ∀ h < 24, ∀ m < 60,
    splitColon (timeStr h m) =
      [⟨[dChar (h / 10), dChar (h % 10)]⟩, ⟨[dChar (m / 10), dChar (m % 10)]⟩] ∧
    sscanfInt ⟨[dChar (h / 10), dChar (h % 10)]⟩ = h ∧
    sscanfInt ⟨[dChar (m / 10), dChar (m % 10)]⟩ = m := by decide

/-- **C2.** For a schedule with a valid timezone and a valid `"HH:MM"`
time, the creation pass triggers at instant `t` iff tomorrow's weekday (in
the schedule's timezone) is among the schedule's lower-cased day names, the
local hour and minute equal the configured time, and no creation is
recorded for `S.name` under tomorrow's date key. -/
theorem creation_fires_iff (tzdb : TzDb) (lc : LC) (S : Schedule) (t off : Int)
    (h m : Nat) (htz : tzdb S.timezone = some off) (htime : S.time = timeStr h m)
    (hh : h < 24) (hm : m < 60) :
    shouldTrigger tzdb lc S t = true ↔
      (wdName (weekdayOf (t + off + 1440)) ∈ S.days.map toLowerStr ∧
       hourOf (t + off) = (h : Int) ∧ minuteOf (t + off) = (m : Int) ∧
       alookup lc S.name ≠ some (dayOf (t + off + 1440))) := by
  obtain ⟨hsplit, hp0, hp1⟩ := timeStr_parse h hh m hm
  simp only [shouldTrigger, htz, htime, hsplit, hp0, hp1]
  by_cases hday : wdName (weekdayOf (t + off + 1440)) ∈ S.days.map toLowerStr
  · have hany : (S.days.any fun d => toLowerStr d == wdName (weekdayOf (t + off + 1440))) = true := by
      rw [List.any_eq_true]
      obtain ⟨d, hd, hdeq⟩ := List.mem_map.mp hday
      exact ⟨d, hd, by simp [hdeq]⟩
    rw [hany]
    simp only [Bool.not_true, Bool.false_eq_true, if_false]
    by_cases hhm : hourOf (t + off) = (h : Int) ∧ minuteOf (t + off) = (m : Int)
    · have : (hourOf (t + off) != (h : Int) || minuteOf (t + off) != (m : Int)) = false := by
        simp [hhm.1, hhm.2]
      rw [this]
      simp only [Bool.false_eq_true, if_false]
      by_cases hrec : alookup lc S.name = some (dayOf (t + off + 1440))
      · simp [hrec, hday, hhm]
      · have : (alookup lc S.name == some (dayOf (t + off + 1440))) = false := by
          simp [hrec]
        simp [this, hday, hhm, hrec]
    · have : (hourOf (t + off) != (h : Int) || minuteOf (t + off) != (m : Int)) = true := by
        rcases Decidable.not_and_iff_or_not.mp hhm with hx | hx <;> simp [hx]
      rw [this]
      simp only [if_true]
      constructor
      · intro hfalse
        exact absurd hfalse (by simp)
      · intro ⟨_, h1, h2, _⟩
        exact absurd ⟨h1, h2⟩ hhm
  · have hany : (S.days.any fun d => toLowerStr d == wdName (weekdayOf (t + off + 1440))) = false := by
      rw [Bool.eq_false_iff]
      intro hx
      obtain ⟨d, hd, hdeq⟩ := List.any_eq_true.mp hx
      exact hday (List.mem_map.mpr ⟨d, hd, by simpa using hdeq⟩)
    rw [hany]
    simp [hday]

theorem creation_fires_iff_witness :
    shouldTrigger tzdb0 [] S0 5340 = true ↔
      (wdName (weekdayOf (5340 + 0 + 1440)) ∈ S0.days.map toLowerStr ∧
       hourOf (5340 + 0) = ((17 : Nat) : Int) ∧ minuteOf (5340 + 0) = ((0 : Nat) : Int) ∧
       alookup ([] : LC) S0.name ≠ some (dayOf (5340 + 0 + 1440))) :=
  creation_fires_iff tzdb0 [] S0 5340 0 17 0 (by decide) (by decide)
    (by norm_num) (by norm_num)

/-! ## Reminder pass (`checkReminders` / `sendReminder`)

`checkReminders` walks the schedule list; for each schedule whose timezone
parses, whose day list contains today's weekday and whose time parses, it
walks the configured lead times and spawns `sendReminder` for each lead
whose target wall-clock hour/minute equal the current ones and whose
`(name, date, lead)` key is not in `sentReminders`.  `sendReminder` marks
the key first.  As for the creation pass, the sequential embedding applies
the mark at spawn time. -/

/-- Inner loop of `checkReminders` over the configured lead times of one
schedule. -/
def remLoop (S : Schedule) (localNow eventTime : Int) (sent : List RemKey) :
    List Int → List RemKey × List RemKey
  | [] => (sent, [])
  | mins :: rest =>
    let reminderTime := eventTime - mins
    if hourOf localNow == hourOf reminderTime &&
        minuteOf localNow == minuteOf reminderTime then
      if (S.name, dayOf localNow, mins) ∈ sent then
        remLoop S localNow eventTime sent rest
      else
        let r := remLoop S localNow eventTime ((S.name, dayOf localNow, mins) :: sent) rest
        (r.1, (S.name, dayOf localNow, mins) :: r.2)
    else remLoop S localNow eventTime sent rest

/-- `checkReminders` restricted to one schedule: the day-match and
time-parse guards in front of the lead-time loop. -/
def checkRemSchedule (tzdb : TzDb) (sent : List RemKey) (S : Schedule)
    (reminderMinutes : List Int) (now : Int) : List RemKey × List RemKey :=
  match tzdb S.timezone with
  | none => (sent, [])
  | some off =>
    let localNow := now + off
    let dayName := wdName (weekdayOf localNow)
    if ! S.days.any (fun d => toLowerStr d == dayName) then (sent, [])
    else
      match splitColon S.time with
      | [p0, p1] =>
        let hour := sscanfInt p0
        let minute := sscanfInt p1
        let eventTime := dayOf localNow * 1440 + hour * 60 + minute
        remLoop S localNow eventTime sent reminderMinutes
      | _ => (sent, [])

/-- One `checkAll` reminder pass over the schedule list. -/
def checkRemindersT (tzdb : TzDb) (sent : List RemKey) (schedules : List Schedule)
    (reminderMinutes : List Int) (now : Int) : List RemKey × List RemKey :=
  match schedules with
  | [] => (sent, [])
  | S :: rest =>
    let r1 := checkRemSchedule tzdb sent S reminderMinutes now
    let r2 := checkRemindersT tzdb r1.1 rest reminderMinutes now
    (r2.1, r1.2 ++ r2.2)

/-- The reminder pass across a sequence of tick instants. -/
def runRemT (tzdb : TzDb) (schedules : List Schedule) (reminderMinutes : List Int)
    (sent : List RemKey) : List Int → List RemKey × List RemKey
  | [] => (sent, [])
  | t :: ts =>
    let r1 := checkRemindersT tzdb sent schedules reminderMinutes t
    let r2 := runRemT tzdb schedules reminderMinutes r1.1 ts
    (r2.1, r1.2 ++ r2.2)

/-- Invariant of every stage of the reminder pass: the sent set only grows,
every emitted key was previously unsent and is marked afterwards, and no
key is emitted twice. -/
def remInv (sent sent' out : List RemKey) : Prop :=
  (∀ k ∈ sent, k ∈ sent') ∧ (∀ k ∈ out, k ∉ sent ∧ k ∈ sent') ∧ out.Nodup

theorem remInv_refl (sent : List RemKey) : remInv sent sent [] :=
  ⟨fun _ hk => hk, fun k hk => absurd hk (List.not_mem_nil k), List.nodup_nil⟩

theorem remInv_comp {s s1 s2 : List RemKey} {o1 o2 : List RemKey}
    (h1 : remInv s s1 o1) (h2 : remInv s1 s2 o2) : remInv s s2 (o1 ++ o2) := by
  obtain ⟨g1, e1, n1⟩ := h1
  obtain ⟨g2, e2, n2⟩ := h2
  refine ⟨fun k hk => g2 k (g1 k hk), ?_, ?_⟩
  · intro k hk
    rcases List.mem_append.mp hk with hk1 | hk2
    · exact ⟨(e1 k hk1).1, g2 k (e1 k hk1).2⟩
    · exact ⟨fun hs => (e2 k hk2).1 (g1 k hs), (e2 k hk2).2⟩
  · rw [List.nodup_append]
    refine ⟨n1, n2, ?_⟩
    intro k hk1 hk2
    exact (e2 k hk2).1 ((e1 k hk1).2)

theorem remLoop_inv (S : Schedule) (localNow eventTime : Int) :
    ∀ (ms : List Int) (sent : List RemKey),
      remInv sent (remLoop S localNow eventTime sent ms).1
        (remLoop S localNow eventTime sent ms).2 := by
  intro ms
  induction ms with
  | nil => intro sent; exact remInv_refl sent
  | cons mins rest ih =>
    intro sent
    simp only [remLoop]
    by_cases htime : (hourOf localNow == hourOf (eventTime - mins) &&
        minuteOf localNow == minuteOf (eventTime - mins)) = true
    · rw [if_pos htime]
      by_cases hmem : (S.name, dayOf localNow, mins) ∈ sent
      · rw [if_pos hmem]
        exact ih sent
      · rw [if_neg hmem]
        obtain ⟨g, e, n⟩ := ih ((S.name, dayOf localNow, mins) :: sent)
        refine ⟨?_, ?_, ?_⟩
        · intro k hk
          exact g k (List.mem_cons_of_mem _ hk)
        · intro k hk
          rcases List.mem_cons.mp hk with rfl | hk'
          · exact ⟨hmem, g _ (List.mem_cons_self _ _)⟩
          · exact ⟨fun hs => (e k hk').1 (List.mem_cons_of_mem _ hs), (e k hk').2⟩
        · rw [List.nodup_cons]
          refine ⟨?_, n⟩
          intro hmem2
          exact (e _ hmem2).1 (List.mem_cons_self _ _)
    · rw [if_neg htime]
      exact ih sent

theorem checkRemSchedule_inv (tzdb : TzDb) (sent : List RemKey) (S : Schedule)
    (reminderMinutes : List Int) (now : Int) :
    remInv sent (checkRemSchedule tzdb sent S reminderMinutes now).1
      (checkRemSchedule tzdb sent S reminderMinutes now).2 := by
  unfold checkRemSchedule
  cases tzdb S.timezone with
  | none => exact remInv_refl sent
  | some off =>
    simp only
    split
    · exact remInv_refl sent
    · split
      · exact remLoop_inv S _ _ reminderMinutes sent
      · exact remInv_refl sent

theorem checkRemindersT_inv (tzdb : TzDb) (schedules : List Schedule)
    (reminderMinutes : List Int) (now : Int) :
    ∀ sent : List RemKey,
      remInv sent (checkRemindersT tzdb sent schedules reminderMinutes now).1
        (checkRemindersT tzdb sent schedules reminderMinutes now).2 := by
  induction schedules with
  | nil => intro sent; exact remInv_refl sent
  | cons S rest ih =>
    intro sent
    exact remInv_comp (checkRemSchedule_inv tzdb sent S reminderMinutes now)
      (ih (checkRemSchedule tzdb sent S reminderMinutes now).1)

theorem runRemT_inv (tzdb : TzDb) (schedules : List Schedule)
    (reminderMinutes : List Int) :
    ∀ (ts : List Int) (sent : List RemKey),
      remInv sent (runRemT tzdb schedules reminderMinutes sent ts).1
        (runRemT tzdb schedules reminderMinutes sent ts).2 := by
  intro ts
  induction ts with
  | nil => intro sent; exact remInv_refl sent
  | cons t ts ih =>
    intro sent
    exact remInv_comp (checkRemindersT_inv tzdb schedules reminderMinutes t sent)
      (ih (checkRemindersT tzdb sent schedules reminderMinutes t).1)

theorem count_le_one_of_nodup {α : Type} [BEq α] [LawfulBEq α] {l : List α}
    (h : l.Nodup) (a : α) : l.count a ≤ 1 := by
  induction l with
  | nil => simp
  | cons b l ih =>
    rw [List.nodup_cons] at h
    obtain ⟨hb, hl⟩ := h
    rw [List.count_cons]
    by_cases hab : b = a
    · subst hab
      have hz : l.count b = 0 := by
        rw [List.count_eq_zero]
        exact hb
      rw [hz]
      simp
    · have hf : (b == a) = false := by simp [hab]
      rw [hf]
      simp only [Bool.false_eq_true, if_false, Nat.add_zero]
      exact ih hl

/-- **C3.** For every schedule name, date and lead time, the reminder
action is invoked at most once for that triple across any sequence of tick
evaluations: the key is checked against the sent-reminders set before the
reminder is spawned and marked at spawn, and the set only grows, so no
reminder key is ever emitted twice. -/
theorem reminder_at_most_once (tzdb : TzDb) (schedules : List Schedule)
    (reminderMinutes : List Int) (sent : List RemKey) (ts : List Int) (k : RemKey) :
    ((runRemT tzdb schedules reminderMinutes sent ts).2).count k ≤ 1 := by
  have hnodup := (runRemT_inv tzdb schedules reminderMinutes ts sent).2.2
  exact count_le_one_of_nodup hnodup k

/-! ## C4: the reminder firing condition compares wall-clock only -/

/-- A schedule whose occurrence is shortly after local midnight, so that
`start − lead` falls on the previous day. -/
def S4 : Schedule :=
  { name := "early", description := "d", voiceChannel := "vc",
    notifyChannel := "nc", days := ["Monday"], time := "00:30", timezone := "UTC",
    durationMinutes := 30 }

/-- **C4 counterexample.** At Monday 23:30 UTC (minute 7170; day 4 of the
epoch is Monday 1970-01-05) the code initiates the 60-minute reminder for
the 00:30 occurrence, although `start − lead` is Sunday 23:30 (minute
5730 ≠ 7170): the comparison uses only the wall-clock hour and minute of
`reminderTime`, not its day, so a coincidence 24 hours later fires. -/
theorem reminder_fires_wrong_day :
    (checkRemindersT tzdb0 [] [S4] [60] 7170).2 = [("early", 4, 60)] ∧
    (7170 : Int) ≠ 4 * 1440 + 30 - 60 := by decide

/-- **C4 amended.** For a schedule with a valid timezone and a valid
`"HH:MM"` time, a reminder for `(S.name, today's date, L)` is initiated at
instant `t` iff today's weekday (in `S`'s timezone) is among the schedule's
lower-cased day names, the current local hour and minute equal the
wall-clock hour and minute of `start − L` (a comparison that ignores the
day, so it can also match a coincidence on a different day), and the triple
is not yet in the sent-reminders set. -/
theorem reminder_fires_iff (tzdb : TzDb) (sent : List RemKey) (S : Schedule)
    (t off L : Int) (h m : Nat) (htz : tzdb S.timezone = some off)
    (htime : S.time = timeStr h m) (hh : h < 24) (hm : m < 60) :
    ((S.name, dayOf (t + off), L) ∈ (checkRemindersT tzdb sent [S] [L] t).2) ↔
      (wdName (weekdayOf (t + off)) ∈ S.days.map toLowerStr ∧
       hourOf (t + off) = hourOf (dayOf (t + off) * 1440 + (h : Int) * 60 + (m : Int) - L) ∧
       minuteOf (t + off) = minuteOf (dayOf (t + off) * 1440 + (h : Int) * 60 + (m : Int) - L) ∧
       (S.name, dayOf (t + off), L) ∉ sent) := by
  obtain ⟨hsplit, hp0, hp1⟩ := timeStr_parse h hh m hm
  simp only [checkRemindersT, checkRemSchedule, htz, htime, hsplit, hp0, hp1]
  by_cases hday : wdName (weekdayOf (t + off)) ∈ S.days.map toLowerStr
  · have hany : (S.days.any fun d => toLowerStr d == wdName (weekdayOf (t + off))) = true := by
      rw [List.any_eq_true]
      obtain ⟨d, hd, hdeq⟩ := List.mem_map.mp hday
      exact ⟨d, hd, by simp [hdeq]⟩
    rw [hany]
    simp only [Bool.not_true, Bool.false_eq_true, if_false, remLoop]
    by_cases hclock : hourOf (t + off) =
        hourOf (dayOf (t + off) * 1440 + (h : Int) * 60 + (m : Int) - L) ∧
        minuteOf (t + off) =
        minuteOf (dayOf (t + off) * 1440 + (h : Int) * 60 + (m : Int) - L)
    · have hb : (hourOf (t + off) ==
          hourOf (dayOf (t + off) * 1440 + (h : Int) * 60 + (m : Int) - L) &&
          minuteOf (t + off) ==
          minuteOf (dayOf (t + off) * 1440 + (h : Int) * 60 + (m : Int) - L)) = true := by
        simp [hclock.1, hclock.2]
      rw [hb]
      simp only [if_true]
      by_cases hmem : (S.name, dayOf (t + off), L) ∈ sent
      · rw [if_pos hmem]
        simp [hday, hclock, hmem, remLoop]
      · rw [if_neg hmem]
        simp [hday, hclock, hmem, remLoop]
    · have hb : (hourOf (t + off) ==
          hourOf (dayOf (t + off) * 1440 + (h : Int) * 60 + (m : Int) - L) &&
          minuteOf (t + off) ==
          minuteOf (dayOf (t + off) * 1440 + (h : Int) * 60 + (m : Int) - L)) = false := by
        rcases Decidable.not_and_iff_or_not.mp hclock with hx | hx <;> simp [hx]
      rw [hb]
      simp only [Bool.false_eq_true, if_false]
      constructor
      · intro hmem
        simp at hmem
      · intro ⟨_, h1, h2, _⟩
        exact absurd ⟨h1, h2⟩ hclock
  · have hany : (S.days.any fun d => toLowerStr d == wdName (weekdayOf (t + off))) = false := by
      rw [Bool.eq_false_iff]
      intro hx
      obtain ⟨d, hd, hdeq⟩ := List.any_eq_true.mp hx
      exact hday (List.mem_map.mpr ⟨d, hd, by simpa using hdeq⟩)
    rw [hany]
    simp [hday]

/-- Monday 16:00 UTC is minute 6720; the 60-minute lead for the 17:00
occurrence of `S0` fires exactly there. -/
theorem reminder_fires_iff_witness :
    (("standup", dayOf ((6720 : Int) + 0), (60 : Int)) ∈
        (checkRemindersT tzdb0 [] [S0] [60] 6720).2) ↔
      (wdName (weekdayOf ((6720 : Int) + 0)) ∈ S0.days.map toLowerStr ∧
       hourOf ((6720 : Int) + 0) =
         hourOf (dayOf ((6720 : Int) + 0) * 1440 + ((17 : Nat) : Int) * 60 + ((0 : Nat) : Int) - 60) ∧
       minuteOf ((6720 : Int) + 0) =
         minuteOf (dayOf ((6720 : Int) + 0) * 1440 + ((17 : Nat) : Int) * 60 + ((0 : Nat) : Int) - 60) ∧
       ("standup", dayOf ((6720 : Int) + 0), (60 : Int)) ∉ ([] : List RemKey)) :=
  reminder_fires_iff tzdb0 [] S0 6720 0 60 17 0 (by decide) (by decide)
    (by norm_num) (by norm_num)

/-! ## `Load` and the scheduler's mutable state (C6) -/

/-- The mutable fields of `scheduler.Scheduler` (the client, guild id,
config path and lock carry no state relevant to the claims).  `lastDigest`
is `Option Int` because the Go field starts as the empty string, which
never equals a formatted date. -/
structure SchedulerState where
  schedules : List Schedule
  digestTime : String
  digestChannel : String
  reminderMinutes : List Int
  channelCache : List (String × String)
  lastCreated : LC
  lastDigest : Option Int
  sentReminders : List RemKey
deriving DecidableEq

/-- `Scheduler.Load`, given the parse result of the configuration resource
(`none` models a read or unmarshal error, after which the state is
untouched).  Note the guard: `reminderMinutes` is only replaced when the
parsed list is non-empty. -/
def LoadT (st : SchedulerState) (parsed : Option ScheduleConfig) : SchedulerState :=
  match parsed with
  | none => st
  | some config =>
    { st with
      schedules := config.schedules
      digestTime := config.digestTime
      digestChannel := config.digestChannel
      reminderMinutes :=
        if config.reminderMinutes.length > 0 then config.reminderMinutes
        else st.reminderMinutes }

/-- The scheduler state as `scheduler.New` builds it (default reminder
lead times of 60 and 15 minutes). -/
def newSchedulerState : SchedulerState :=
  { schedules := [], digestTime := "", digestChannel := "",
    reminderMinutes := [60, 15], channelCache := [], lastCreated := [],
    lastDigest := none, sentReminders := [] }

/-- **C6 counterexample.** `Load` does not always replace the reminder
lead-times with the parsed values: for a parseable configuration whose
`reminder_minutes` list is empty, the previous list is kept. -/
theorem load_keeps_default_reminders :
    (LoadT newSchedulerState
        (some { schedules := [], digestTime := "08:00", digestChannel := "general",
                reminderMinutes := [] })).reminderMinutes = [60, 15] ∧
    [60, 15] ≠ ([] : List Int) := by decide

/-- **C6 amended.** For every parseable configuration, `Load` replaces the
schedule list, digest time and digest channel with the parsed values,
replaces the reminder lead-times only when the parsed list is non-empty
(keeping the previous value otherwise), and leaves every dedup field
(`lastCreated`, `sentReminders`, `lastDigest`) and the channel cache
unchanged — so a reload preserves dedup marks for unchanged names. -/
theorem load_replaces_config_preserves_dedup (st : SchedulerState)
    (config : ScheduleConfig) :
    (LoadT st (some config)).schedules = config.schedules ∧
    (LoadT st (some config)).digestTime = config.digestTime ∧
    (LoadT st (some config)).digestChannel = config.digestChannel ∧
    (LoadT st (some config)).reminderMinutes =
      (if config.reminderMinutes.length > 0 then config.reminderMinutes
       else st.reminderMinutes) ∧
    (LoadT st (some config)).lastCreated = st.lastCreated ∧
    (LoadT st (some config)).sentReminders = st.sentReminders ∧
    (LoadT st (some config)).lastDigest = st.lastDigest ∧
    (LoadT st (some config)).channelCache = st.channelCache :=
  ⟨rfl, rfl, rfl, rfl, rfl, rfl, rfl, rfl⟩

/-! ## Outbound actions and the channel resolver (C5, C7)

The Discord REST client is an external collaborator; an `Oracle` fixes the
outcome of each kind of call for one action run.  Each action returns its
updated state together with the ordered trace of the dedup-mark write and
the outbound calls it made.  Message-text formatting is pure and carries no
state, so the trace records only the call targets and outcomes. -/

/-- Trace events of one action run. -/
inductive ApiEv where
  | markReminder (key : RemKey)
  | markCreated (name : String) (dateKey : Int)
  | markDigest (dateKey : Int)
  | callGetChannels (ok : Bool)
  | callSendMessage (channelID : String) (ok : Bool)
  | callCreateEvent (ok : Bool)
deriving DecidableEq

/-- Outcomes of the collaborator's calls during one action run:
`channels` is the `GetGuildChannels` result as `(name, id)` pairs (`none`
is a failed call), `sendOk` the `SendMessage` outcome, `createOk` the
`CreateScheduledEvent` outcome (the created event's id on success). -/
structure Oracle where
  channels : Option (List (String × String))
  sendOk : Bool
  createOk : Option String
deriving DecidableEq

/-- `Scheduler.resolveChannelID`: cached name → id, otherwise one
`GetGuildChannels` call repopulating the cache with every returned entry
(later entries and fresh entries shadowing older ones, as Go map
assignment does), then a second cache lookup. -/
def resolveChannelIDT (cache : List (String × String)) (orc : Oracle) (name : String) :
    List (String × String) × Option String × List ApiEv :=
  match alookup cache name with
  | some id => (cache, some id, [])
  | none =>
    match orc.channels with
    | none => (cache, none, [ApiEv.callGetChannels false])
    | some chans =>
      let cache' := chans.foldl (fun c p => (p.1, p.2) :: c) cache
      (cache', alookup cache' name, [ApiEv.callGetChannels true])

/-- `Scheduler.sendReminder`: marks the reminder key first, then resolves
the notify channel (aborting on failure), resolves the voice channel with
the error ignored, and sends one message. -/
def sendReminderT (sent : List RemKey) (cache : List (String × String))
    (orc : Oracle) (S : Schedule) (key : RemKey) :
    List RemKey × List (String × String) × List ApiEv :=
  let sent' := key :: sent
  let r1 := resolveChannelIDT cache orc S.notifyChannel
  match r1.2.1 with
  | none => (sent', r1.1, ApiEv.markReminder key :: r1.2.2)
  | some channelID =>
    let r2 := resolveChannelIDT r1.1 orc S.voiceChannel
    (sent', r2.1,
      ApiEv.markReminder key :: (r1.2.2 ++ r2.2.2 ++
        [ApiEv.callSendMessage channelID orc.sendOk]))

/-- `Scheduler.triggerSchedule`: records tomorrow's date key first, then
resolves the voice and notify channels, creates the scheduled event and
sends the announcement, aborting (with the mark kept) at the first
failure.  It is reached only with a valid timezone (`shouldTrigger` checks
it), so the ignored `LoadLocation` error is modelled by `getD 0`. -/
def triggerScheduleT (tzdb : TzDb) (lc : LC) (cache : List (String × String))
    (orc : Oracle) (S : Schedule) (now : Int) :
    LC × List (String × String) × List ApiEv :=
  let off := (tzdb S.timezone).getD 0
  let dateKey := dayOf (now + off + 1440)
  let lc' := (S.name, dateKey) :: lc
  let r1 := resolveChannelIDT cache orc S.voiceChannel
  match r1.2.1 with
  | none => (lc', r1.1, ApiEv.markCreated S.name dateKey :: r1.2.2)
  | some _voiceChannelID =>
    let r2 := resolveChannelIDT r1.1 orc S.notifyChannel
    match r2.2.1 with
    | none => (lc', r2.1, ApiEv.markCreated S.name dateKey :: (r1.2.2 ++ r2.2.2))
    | some notifyChannelID =>
      match orc.createOk with
      | none =>
        (lc', r2.1,
          ApiEv.markCreated S.name dateKey :: (r1.2.2 ++ r2.2.2 ++
            [ApiEv.callCreateEvent false]))
      | some _eventID =>
        (lc', r2.1,
          ApiEv.markCreated S.name dateKey :: (r1.2.2 ++ r2.2.2 ++
            [ApiEv.callCreateEvent true,
             ApiEv.callSendMessage notifyChannelID orc.sendOk]))

/-- `Scheduler.checkDigest` followed by `sendDailyDigest`: all guards, the
`lastDigest` mark, and the digest posting (channel resolution plus one
message). -/
def checkDigestT (tzdb : TzDb) (digestTime digestChannel : String)
    (schedules : List Schedule) (lastDigest : Option Int)
    (cache : List (String × String)) (orc : Oracle) (now : Int) :
    Option Int × List (String × String) × List ApiEv :=
  if digestTime == "" || digestChannel == "" then (lastDigest, cache, [])
  else
    match schedules with
    | [] => (lastDigest, cache, [])
    | S1 :: _ =>
      match tzdb S1.timezone with
      | none => (lastDigest, cache, [])
      | some off =>
        let localNow := now + off
        let dateKey := dayOf localNow
        if lastDigest == some dateKey then (lastDigest, cache, [])
        else
          match splitColon digestTime with
          | [p0, p1] =>
            let hour := sscanfInt p0
            let minute := sscanfInt p1
            if hourOf localNow != hour || minuteOf localNow != minute then
              (lastDigest, cache, [])
            else
              let r1 := resolveChannelIDT cache orc digestChannel
              match r1.2.1 with
              | none => (some dateKey, r1.1, ApiEv.markDigest dateKey :: r1.2.2)
              | some channelID =>
                (some dateKey, r1.1,
                  ApiEv.markDigest dateKey :: (r1.2.2 ++
                    [ApiEv.callSendMessage channelID orc.sendOk]))
          | _ => (lastDigest, cache, [])

/-- Recogniser for message-delivery attempts in a trace. -/
def isSendCall : ApiEv → Bool
  | ApiEv.callSendMessage _ _ => true
  | _ => false

theorem resolve_no_send (cache : List (String × String)) (orc : Oracle)
    (name : String) :
    ((resolveChannelIDT cache orc name).2.2).filter isSendCall = [] := by
  unfold resolveChannelIDT
  cases halookup : alookup cache name with
  | some id => rfl
  | none =>
    cases hch : orc.channels with
    | none => rfl
    | some chans => rfl

/-- **C5.** For each of the three side-effecting actions — reminder
delivery, scheduled-resource creation, digest posting — the
duplicate-suppression mark is the first event of the action's trace,
strictly before any outbound call; the post-state contains the mark for
every oracle, including one where every call fails (no rollback); and each
run attempts message delivery at most once (no retry). -/
theorem mark_committed_before_calls (tzdb : TzDb) (sent : List RemKey)
    (cache : List (String × String)) (orc : Oracle) (S : Schedule) (key : RemKey)
    (lc : LC) (now : Int) (digestTime digestChannel : String)
    (schedules : List Schedule) (lastDigest : Option Int) :
    ((sendReminderT sent cache orc S key).2.2.head? = some (ApiEv.markReminder key) ∧
     key ∈ (sendReminderT sent cache orc S key).1 ∧
     (((sendReminderT sent cache orc S key).2.2).filter isSendCall).length ≤ 1) ∧
    ((triggerScheduleT tzdb lc cache orc S now).2.2.head? =
        some (ApiEv.markCreated S.name (dayOf (now + (tzdb S.timezone).getD 0 + 1440))) ∧
     alookup (triggerScheduleT tzdb lc cache orc S now).1 S.name =
        some (dayOf (now + (tzdb S.timezone).getD 0 + 1440)) ∧
     (((triggerScheduleT tzdb lc cache orc S now).2.2).filter isSendCall).length ≤ 1) ∧
    (((checkDigestT tzdb digestTime digestChannel schedules lastDigest cache orc now).2.2 = [] ∧
      (checkDigestT tzdb digestTime digestChannel schedules lastDigest cache orc now).1 = lastDigest) ∨
     (∃ dk,
       (checkDigestT tzdb digestTime digestChannel schedules lastDigest cache orc now).2.2.head? =
         some (ApiEv.markDigest dk) ∧
       (checkDigestT tzdb digestTime digestChannel schedules lastDigest cache orc now).1 = some dk)) ∧
    (((checkDigestT tzdb digestTime digestChannel schedules lastDigest cache orc now).2.2).filter
        isSendCall).length ≤ 1 := by
  refine ⟨?_, ?_, ?_⟩
  · -- sendReminder
    cases h1 : (resolveChannelIDT cache orc S.notifyChannel).2.1 with
    | none =>
      simp only [sendReminderT, h1]
      refine ⟨rfl, List.mem_cons_self _ _, ?_⟩
      rw [List.filter_cons_of_neg (by simp [isSendCall]), resolve_no_send]
      simp
    | some channelID =>
      simp only [sendReminderT, h1]
      refine ⟨rfl, List.mem_cons_self _ _, ?_⟩
      rw [List.filter_cons_of_neg (by simp [isSendCall]), List.filter_append,
        List.filter_append, resolve_no_send, resolve_no_send]
      simp [isSendCall]
  · -- triggerSchedule
    cases h1 : (resolveChannelIDT cache orc S.voiceChannel).2.1 with
    | none =>
      simp only [triggerScheduleT, h1]
      refine ⟨rfl, by simp [alookup], ?_⟩
      rw [List.filter_cons_of_neg (by simp [isSendCall]), resolve_no_send]
      simp
    | some voiceChannelID =>
      cases h2 : (resolveChannelIDT (resolveChannelIDT cache orc S.voiceChannel).1 orc
          S.notifyChannel).2.1 with
      | none =>
        simp only [triggerScheduleT, h1, h2]
        refine ⟨rfl, by simp [alookup], ?_⟩
        rw [List.filter_cons_of_neg (by simp [isSendCall]), List.filter_append,
          resolve_no_send, resolve_no_send]
        simp
      | some notifyChannelID =>
        cases h3 : orc.createOk with
        | none =>
          simp only [triggerScheduleT, h1, h2, h3]
          refine ⟨rfl, by simp [alookup], ?_⟩
          rw [List.filter_cons_of_neg (by simp [isSendCall]), List.filter_append,
            List.filter_append, resolve_no_send, resolve_no_send]
          simp [isSendCall]
        | some eventID =>
          simp only [triggerScheduleT, h1, h2, h3]
          refine ⟨rfl, by simp [alookup], ?_⟩
          rw [List.filter_cons_of_neg (by simp [isSendCall]), List.filter_append,
            List.filter_append, resolve_no_send, resolve_no_send]
          simp [isSendCall]
  · -- checkDigest
    unfold checkDigestT
    by_cases hcfg : (digestTime == "" || digestChannel == "") = true
    · rw [if_pos hcfg]
      exact ⟨Or.inl ⟨rfl, rfl⟩, by simp⟩
    · rw [if_neg hcfg]
      cases schedules with
      | nil => exact ⟨Or.inl ⟨rfl, rfl⟩, by simp⟩
      | cons S1 rest =>
        dsimp only
        cases htz : tzdb S1.timezone with
        | none => exact ⟨Or.inl ⟨rfl, rfl⟩, by simp⟩
        | some off =>
          dsimp only
          by_cases hlast : (lastDigest == some (dayOf (now + off))) = true
          · rw [if_pos hlast]
            exact ⟨Or.inl ⟨rfl, rfl⟩, by simp⟩
          · rw [if_neg hlast]
            cases hsplit : splitColon digestTime with
            | nil => exact ⟨Or.inl ⟨rfl, rfl⟩, by simp⟩
            | cons p0 ps =>
              cases ps with
              | nil => exact ⟨Or.inl ⟨rfl, rfl⟩, by simp⟩
              | cons p1 ps2 =>
                cases ps2 with
                | cons p2 ps3 => exact ⟨Or.inl ⟨rfl, rfl⟩, by simp⟩
                | nil =>
                  dsimp only
                  by_cases hhm : (hourOf (now + off) != sscanfInt p0 ||
                      minuteOf (now + off) != sscanfInt p1) = true
                  · rw [if_pos hhm]
                    exact ⟨Or.inl ⟨rfl, rfl⟩, by simp⟩
                  · rw [if_neg hhm]
                    cases hres : (resolveChannelIDT cache orc digestChannel).2.1 with
                    | none =>
                      simp only [hres]
                      refine ⟨Or.inr ⟨dayOf (now + off), rfl, rfl⟩, ?_⟩
                      rw [List.filter_cons_of_neg (by simp [isSendCall]), resolve_no_send]
                      simp
                    | some channelID =>
                      simp only [hres]
                      refine ⟨Or.inr ⟨dayOf (now + off), rfl, rfl⟩, ?_⟩
                      rw [List.filter_cons_of_neg (by simp [isSendCall]),
                        List.filter_append, resolve_no_send]
                      simp [isSendCall]

theorem alookup_cons_isSome {α : Type} (k : String) (v : α) (c : List (String × α))
    (n : String) (h : (alookup c n).isSome) : (alookup ((k, v) :: c) n).isSome := by
  simp only [alookup]
  split
  · rfl
  · exact h

theorem foldl_cache_isSome_mono :
    ∀ (chans cache : List (String × String)) (n : String),
      (alookup cache n).isSome →
      (alookup (chans.foldl (fun c q => (q.1, q.2) :: c) cache) n).isSome := by
  intro chans
  induction chans with
  | nil => intro cache n h; exact h
  | cons q rest ih =>
    intro cache n h
    simp only [List.foldl_cons]
    exact ih _ n (alookup_cons_isSome q.1 q.2 cache n h)

theorem foldl_cache_covers :
    ∀ (chans cache : List (String × String)) (p : String × String), p ∈ chans →
      (alookup (chans.foldl (fun c q => (q.1, q.2) :: c) cache) p.1).isSome := by
  intro chans
  induction chans with
  | nil => intro cache p hp; exact absurd hp (List.not_mem_nil p)
  | cons q rest ih =>
    intro cache p hp
    simp only [List.foldl_cons]
    rcases List.mem_cons.mp hp with rfl | hp'
    · apply foldl_cache_isSome_mono
      simp [alookup]
    · exact ih _ p hp'

/-- **C7.** `resolveChannelID`: a cached name is answered from the cache
with no outbound call and no cache change; otherwise one channel-listing
call is made — on failure the error is surfaced with the cache untouched,
on success an entry is cached for every returned channel (not only the
requested one) and the result is exactly the post-refresh cache lookup
(`none` is the not-found error). -/
theorem resolve_characterization (cache : List (String × String)) (orc : Oracle)
    (name : String) :
    (∀ id, alookup cache name = some id →
      resolveChannelIDT cache orc name = (cache, some id, [])) ∧
    (alookup cache name = none → orc.channels = none →
      resolveChannelIDT cache orc name = (cache, none, [ApiEv.callGetChannels false])) ∧
    (∀ chans, alookup cache name = none → orc.channels = some chans →
      (resolveChannelIDT cache orc name).2.2 = [ApiEv.callGetChannels true] ∧
      (∀ p ∈ chans, (alookup (resolveChannelIDT cache orc name).1 p.1).isSome) ∧
      (resolveChannelIDT cache orc name).2.1 =
        alookup (resolveChannelIDT cache orc name).1 name) := by
  refine ⟨?_, ?_, ?_⟩
  · intro id hid
    unfold resolveChannelIDT
    rw [hid]
  · intro hnone hch
    unfold resolveChannelIDT
    rw [hnone, hch]
  · intro chans hnone hch
    have hres : resolveChannelIDT cache orc name =
        (chans.foldl (fun c q => (q.1, q.2) :: c) cache,
         alookup (chans.foldl (fun c q => (q.1, q.2) :: c) cache) name,
         [ApiEv.callGetChannels true]) := by
      unfold resolveChannelIDT
      rw [hnone, hch]
    rw [hres]
    exact ⟨rfl, fun p hp => foldl_cache_covers chans cache p hp, rfl⟩

/-- An oracle whose channel listing succeeds with two channels and whose
other calls succeed. -/
def orc0 : Oracle :=
  { channels := some [("general", "123"), ("voice", "456")], sendOk := true,
    createOk := some "ev1" }

theorem resolve_characterization_witness :
    (resolveChannelIDT [] orc0 "general").2.2 = [ApiEv.callGetChannels true] ∧
    (resolveChannelIDT [] orc0 "general").2.1 =
      alookup (resolveChannelIDT [] orc0 "general").1 "general" ∧
    (alookup (resolveChannelIDT [] orc0 "general").1 "voice").isSome := by
  have h := (resolve_characterization [] orc0 "general").2.2
    [("general", "123"), ("voice", "456")] (by decide) (by decide)
  exact ⟨h.1, h.2.2, h.2.1 ("voice", "456") (by decide)⟩

/-! ## Gateway client (`internal/discord/client.go`), C8 and C9

The raw `d` payload of a frame is JSON decoded by external code; a frame
is therefore modelled by the outcomes of the decodes the handler may
attempt on it (`none` = `json.Unmarshal` error).  `readLoopIterT` is one
iteration of `readLoop`: a failed `wsjson.Read` (`none` frame) logs and
exits the loop; a decoded frame is passed to `handlePayload` and the loop
continues. -/

def opDispatch : Int := 0
def opHeartbeat : Int := 1
def opReconnect : Int := 7
def opInvalidSession : Int := 9
def opHello : Int := 10
def opHeartbeatAck : Int := 11

/-- `discord.HelloData`. -/
structure HelloData where
  heartbeatInterval : Int
deriving DecidableEq

/-- `discord.ReadyData` (the user field only feeds a log line). -/
structure ReadyData where
  sessionID : String
deriving DecidableEq

/-- A received `discord.GatewayPayload`, with the decode outcomes of its
raw data. -/
structure GatewayPayloadT where
  op : Int
  dataHello : Option HelloData
  dataReady : Option ReadyData
  sequence : Option Int
  eventName : String
deriving DecidableEq

/-- The mutable session fields of `discord.Gateway`. -/
structure GatewayState where
  sequence : Int
  sessionID : String
deriving DecidableEq

/-- Observable effects of the payload handler. -/
inductive GEffect where
  | logParseError
  | startHeartbeat (intervalMs : Int)
  | sendIdentify
  | sendHeartbeat (seq : Int)
  | logReconnect
  | sleepReidentify
  | dispatchEvent (eventName : String)
deriving DecidableEq

/-- `Gateway.dispatch`: a `READY` event whose payload fails to decode is
logged and dropped without reaching the handlers; otherwise `READY`
captures the session id and every event is handed to the registered
handlers. -/
def dispatchT (g : GatewayState) (p : GatewayPayloadT) : GatewayState × List GEffect :=
  if p.eventName == "READY" then
    match p.dataReady with
    | none => (g, [GEffect.logParseError])
    | some ready =>
      ({ g with sessionID := ready.sessionID }, [GEffect.dispatchEvent p.eventName])
  else (g, [GEffect.dispatchEvent p.eventName])

/-- `Gateway.handlePayload`. -/
def handlePayloadT (g : GatewayState) (p : GatewayPayloadT) : GatewayState × List GEffect :=
  let g1 := match p.sequence with
    | some s => { g with sequence := s }
    | none => g
  if p.op == opHello then
    match p.dataHello with
    | none => (g1, [GEffect.logParseError])
    | some hello =>
      (g1, [GEffect.startHeartbeat hello.heartbeatInterval, GEffect.sendIdentify])
  else if p.op == opHeartbeat then (g1, [GEffect.sendHeartbeat g1.sequence])
  else if p.op == opHeartbeatAck then (g1, [])
  else if p.op == opReconnect then (g1, [GEffect.logReconnect])
  else if p.op == opInvalidSession then (g1, [GEffect.sleepReidentify, GEffect.sendIdentify])
  else if p.op == opDispatch then dispatchT g1 p
  else (g1, [])

/-- Whether one `readLoop` iteration exits the loop or continues. -/
inductive LoopOutcome where
  | next
  | exit
deriving DecidableEq

/-- One iteration of `Gateway.readLoop`: `none` is a failed
`wsjson.Read`, which logs the error and returns from the loop; any decoded
frame is handled and the loop continues. -/
def readLoopIterT (g : GatewayState) (frame : Option GatewayPayloadT) :
    GatewayState × LoopOutcome × List GEffect :=
  match frame with
  | none => (g, LoopOutcome.exit, [])
  | some p =>
    let r := handlePayloadT g p
    (r.1, LoopOutcome.next, r.2)

/-- The fresh state of `NewGateway`. -/
def g0 : GatewayState := { sequence := 0, sessionID := "" }

/-- A HELLO frame whose payload does not decode. -/
def malformedHello : GatewayPayloadT :=
  { op := 10, dataHello := none, dataReady := none, sequence := none, eventName := "" }

/-- **C8 counterexample.** A malformed HELLO does not terminate the read
loop: the iteration that processes it continues the loop (the handler logs
the parse failure and returns to the reader), so the connect attempt is
not aborted and no error is surfaced. -/
theorem malformed_hello_continues_loop :
    (readLoopIterT g0 (some malformedHello)).2.1 = LoopOutcome.next ∧
    LoopOutcome.next ≠ LoopOutcome.exit := by decide

/-- **C8 amended.** A HELLO frame whose payload fails to decode is logged
and dropped: the handler produces only a parse-error log — no heartbeat is
started, no identify is sent — and the read loop continues; only a frame
read failure (or context cancellation) terminates the loop. -/
theorem malformed_hello_logged_and_dropped (g : GatewayState) (p : GatewayPayloadT)
    (hop : p.op = opHello) (hdata : p.dataHello = none) :
    readLoopIterT g (some p) =
      ((match p.sequence with
        | some s => { g with sequence := s }
        | none => g),
       LoopOutcome.next, [GEffect.logParseError]) := by
  simp only [readLoopIterT, handlePayloadT, hop, hdata]
  simp

theorem malformed_hello_logged_and_dropped_witness :
    readLoopIterT g0 (some malformedHello) =
      (g0, LoopOutcome.next, [GEffect.logParseError]) :=
  malformed_hello_logged_and_dropped g0 malformedHello (by decide) (by decide)

/-- A DISPATCH frame carrying sequence number `s`. -/
def seqFrame (s : Int) : GatewayPayloadT :=
  { op := 0, dataHello := none, dataReady := none, sequence := some s, eventName := "E" }

/-- **C9 counterexample.** The stored sequence number is a plain
last-write-wins assignment: a frame carrying a smaller sequence number
than the stored one decreases it (frames 5 then 3 leave the state at 3). -/
theorem sequence_can_decrease :
    (handlePayloadT (handlePayloadT g0 (seqFrame 5)).1 (seqFrame 3)).1.sequence <
      (handlePayloadT g0 (seqFrame 5)).1.sequence := by decide

theorem handlePayload_sequence (g : GatewayState) (p : GatewayPayloadT) :
    (handlePayloadT g p).1.sequence =
      (match p.sequence with
       | some s => s
       | none => g.sequence) := by
  cases hs : p.sequence with
  | none =>
    simp only [handlePayloadT, dispatchT, hs]
    repeat' split
    all_goals rfl
  | some s =>
    simp only [handlePayloadT, dispatchT, hs]
    repeat' split
    all_goals rfl

/-- The stored sequence number after each processed frame. -/
def seqTrace (g : GatewayState) : List GatewayPayloadT → List Int
  | [] => []
  | p :: ps =>
    let g' := (handlePayloadT g p).1
    g'.sequence :: seqTrace g' ps

/-- **C9 amended.** The stored sequence number is the last received one;
it is non-decreasing over a session provided the sequence numbers carried
by the inbound frames are themselves non-decreasing (starting from the
stored value), which is what the gateway protocol delivers.  For arbitrary
inbound frames it can decrease (see the counterexample). -/
theorem sequence_monotone_of_monotone_frames (g : GatewayState)
    (ps : List GatewayPayloadT)
    (h : List.Chain' (· ≤ ·) (g.sequence :: ps.filterMap GatewayPayloadT.sequence)) :
    List.Chain' (· ≤ ·) (g.sequence :: seqTrace g ps) := by
  induction ps generalizing g with
  | nil => simp [seqTrace]
  | cons p ps ih =>
    cases hs : p.sequence with
    | none =>
      have hseq : (handlePayloadT g p).1.sequence = g.sequence := by
        rw [handlePayload_sequence, hs]
      rw [List.filterMap_cons] at h
      simp only [hs] at h
      have ih' := ih (handlePayloadT g p).1 (by rw [hseq]; exact h)
      simp only [seqTrace, hseq]
      rw [List.chain'_cons]
      refine ⟨le_refl _, ?_⟩
      rw [hseq] at ih'
      exact ih'
    | some s =>
      have hseq : (handlePayloadT g p).1.sequence = s := by
        rw [handlePayload_sequence, hs]
      rw [List.filterMap_cons] at h
      simp only [hs] at h
      rw [List.chain'_cons] at h
      obtain ⟨hle, h'⟩ := h
      have ih' := ih (handlePayloadT g p).1 (by rw [hseq]; exact h')
      simp only [seqTrace, hseq]
      rw [List.chain'_cons]
      refine ⟨hle, ?_⟩
      rw [hseq] at ih'
      exact ih'

theorem sequence_monotone_witness :
    List.Chain' (· ≤ ·) (g0.sequence :: seqTrace g0 [seqFrame 1, seqFrame 4]) :=
  sequence_monotone_of_monotone_frames g0 [seqFrame 1, seqFrame 4]
    (by simp [g0, seqFrame, List.filterMap_cons, List.chain'_cons])

/-! ## Message handler (`internal/bot/bot.go`), C10 -/

/-- `discord.User` (the fields the handler reads). -/
structure UserT where
  id : String
  username : String
  discriminator : String
  bot : Bool
deriving DecidableEq

/-- `discord.Message` (the fields the handler reads). -/
structure MessageT where
  id : String
  channelID : String
  author : Option UserT
  content : String
deriving DecidableEq

/-- Observable effects of the message handler. -/
inductive BotEffect where
  | logParseError
  | sendMessage (channelID : String) (content : String)
deriving DecidableEq

/-- `Bot.onMessageCreate`, given the decode outcome of the dispatch
payload (`none` = `json.Unmarshal` error). -/
def onMessageCreateT (decoded : Option MessageT) : List BotEffect :=
  match decoded with
  | none => [BotEffect.logParseError]
  | some msg =>
    if (match msg.author with
        | some a => a.bot
        | none => false) then []
    else if msg.content == "!ping" then
      [BotEffect.sendMessage msg.channelID "pong!"]
    else []

/-- **C10.** A message whose author is flagged as a bot produces no
outbound call and no reply, regardless of its content (including
`"!ping"`). -/
theorem bot_author_ignored (msg : MessageT) (a : UserT)
    (hauthor : msg.author = some a) (hbot : a.bot = true) :
    onMessageCreateT (some msg) = [] := by
  simp only [onMessageCreateT, hauthor, hbot]
  simp

theorem bot_author_ignored_witness :
    onMessageCreateT (some
      { id := "1", channelID := "c",
        author := some { id := "2", username := "u", discriminator := "0", bot := true },
        content := "!ping" }) = [] :=
  bot_author_ignored _ _ rfl rfl

end CnaypBots
